import Mathlib

/-!
Verification development for `tessie` (src/src/main.rs), a command-line
wrapper that assembles and invokes an ffmpeg command line.

The embedding models:
 - Rust `std::path` extension handling (`Path::extension`,
   `PathBuf::set_extension`) for single-component paths (file names),
   which is all the program's naming logic touches;
 - the `Format` enum with its `input_args`, `output_file` and
   `output_args` methods (main.rs lines 9-106);
 - the `Ffmpeg` struct and the argument assembly of `Ffmpeg::transcode`
   (main.rs lines 108-174), with `process::Command` modelled as its
   accumulated argument list;
 - the effectful control flow of `main` (main.rs lines 221-253) as a
   pure function from an environment (probe outcome, file-existence
   oracle, subprocess exit oracle) to a result together with the ordered
   trace of external effects (version probe, output-file check,
   transcode spawn).
-/

namespace Tessie

/-! ## Rust path semantics (single file-name component)

`Path::extension` / `PathBuf::set_extension` operate on the final path
component only; we model paths as that component (a `String`).  Rust's
`file_name` returns `None` for the empty path and for the special
components `.` and `..`; otherwise the component itself.  A file name is
split at its last `.`: if there is none, or the part before it is empty
(a leading-dot file like `.hidden`), there is no extension. -/

/-- Split a character list at its last `.`: `some (before, after)` when a
dot exists, `none` otherwise. -/
def lastDotSplit : List Char → Option (List Char × List Char)
  | [] => none
  | c :: rest =>
    match lastDotSplit rest with
    | some (b, a) => some (c :: b, a)
    | none => if c = '.' then some ([], rest) else none

/-- Rust `Path::file_name` restricted to single-component paths. -/
def fileName (p : String) : Option String :=
  if p = "" ∨ p = "." ∨ p = ".." then none else some p

/-- Rust `split_file_at_dot` on a file name: stem and optional extension. -/
def splitFileAtDot (f : String) : String × Option String :=
  match lastDotSplit f.data with
  | none => (f, none)
  | some (b, a) => if b = [] then (f, none) else (⟨b⟩, some ⟨a⟩)

/-- Rust `Path::extension` (single-component model). -/
def extension (p : String) : Option String :=
  (fileName p).bind fun f => (splitFileAtDot f).2

/-- Rust `PathBuf::set_extension` (single-component model): no-op when
there is no file name; otherwise truncate to the stem and, when `e` is
nonempty, append `.` followed by `e`. -/
def setExtension (p : String) (e : String) : String :=
  match fileName p with
  | none => p
  | some f => (splitFileAtDot f).1 ++ (if e = "" then "" else "." ++ e)

/-! ## The format catalog (main.rs lines 9-106) -/

/-- The format to transcode to (main.rs enum `Format`). -/
inductive Format
  /-- YouTube-optimized format (1080p @ 60fps). -/
  | YouTube
  /-- High-quality GIF. -/
  | Gif
  /-- Copy input parameters. -/
  | Copy
deriving DecidableEq

/-- `process::Command`, modelled as its accumulated argument list (the
program name `ffmpeg` is fixed and not part of the list). -/
structure Command where
  args : List String
deriving DecidableEq

/-- `Command::arg`: append one argument. -/
def Command.arg (c : Command) (a : String) : Command := ⟨c.args ++ [a]⟩

/-- `Command::args`: append a sequence of arguments. -/
def Command.addArgs (c : Command) (l : List String) : Command := ⟨c.args ++ l⟩

/-- `Format::input_args` (main.rs lines 20-29): only `YouTube` adds
pre-input flags; the wildcard arm does nothing. -/
def Format.input_args (fmt : Format) (cmd : Command) : Command :=
  match fmt with
  | .YouTube => cmd.addArgs ["-y", "-hwaccel", "cuvid", "-c:v", "h264_cuvid"]
  | _ => cmd

/-- `Format::output_file` (main.rs lines 32-55): derive the output path
from the input path. -/
def Format.output_file (fmt : Format) (input : String) : Except String String :=
  match fmt with
  | .YouTube => .ok (setExtension input "mp4")
  | .Gif => .ok (setExtension input "gif")
  | .Copy =>
    match extension input with
    | some e => .ok (setExtension input ("copy." ++ e))
    | none => .error ("expected extension: " ++ input)

/-- `Format::output_args` (main.rs lines 57-105). -/
def Format.output_args (fmt : Format) (cmd : Command) : Command :=
  match fmt with
  | .YouTube =>
    cmd.addArgs ["-c:v", "h264_nvenc", "-coder", "1", "-preset", "llhq",
      "-rc:v", "vbr_minqp", "-qmin:v", "21", "-qmax:v", "23", "-b:v",
      "5000k", "-maxrate:v", "8000k", "-profile:v", "high", "-bf", "2",
      "-c:a", "aac", "-profile:a", "aac_low", "-b:a", "384k", "-f", "mp4"]
  | .Gif =>
    cmd.addArgs ["-filter_complex",
      "[0:v] fps=12,scale=280:-1,split [a][b];[a] palettegen [p];[b][p] paletteuse",
      "-f", "gif"]
  | .Copy => cmd.addArgs ["-c:v", "copy", "-c:a", "copy"]

/-- The pre-input flag bundle of a preset, as a plain list (the flag
sequences of `Format::input_args` flattened out for specification). -/
def Format.pre_input_flags (fmt : Format) : List String :=
  match fmt with
  | .YouTube => ["-y", "-hwaccel", "cuvid", "-c:v", "h264_cuvid"]
  | .Gif => []
  | .Copy => []

/-- The post-input (output-side) flag bundle of a preset, as a plain
list (the flag sequences of `Format::output_args` flattened out). -/
def Format.post_input_flags (fmt : Format) : List String :=
  match fmt with
  | .YouTube =>
    ["-c:v", "h264_nvenc", "-coder", "1", "-preset", "llhq",
     "-rc:v", "vbr_minqp", "-qmin:v", "21", "-qmax:v", "23", "-b:v",
     "5000k", "-maxrate:v", "8000k", "-profile:v", "high", "-bf", "2",
     "-c:a", "aac", "-profile:a", "aac_low", "-b:a", "384k", "-f", "mp4"]
  | .Gif =>
    ["-filter_complex",
     "[0:v] fps=12,scale=280:-1,split [a][b];[a] palettegen [p];[b][p] paletteuse",
     "-f", "gif"]
  | .Copy => ["-c:v", "copy", "-c:a", "copy"]

/-! ## The ffmpeg abstraction (main.rs lines 108-174) -/

/-- The `Ffmpeg` struct: optional trim parameters and stream maps. -/
structure Ffmpeg where
  map : List String
  start : Option String
  «end» : Option String
  duration : Option String
deriving DecidableEq

/-- The argument-assembly part of `Ffmpeg::transcode` (main.rs lines
140-164): build the command in the source's order by successive
appends. -/
def Ffmpeg.transcode_cmd (f : Ffmpeg) (format : Format)
    (input output : String) : Command :=
  let cmd : Command := ⟨[]⟩
  let cmd := match f.start with
    | some start => cmd.addArgs ["-ss", start]
    | none => cmd
  let cmd := match f.«end» with
    | some e => cmd.addArgs ["-to", e]
    | none => cmd
  let cmd := match f.duration with
    | some duration => cmd.addArgs ["-t", duration]
    | none => cmd
  let cmd := format.input_args cmd
  let cmd := (cmd.arg "-i").arg input
  let cmd := f.map.foldl (fun c m => (c.arg "-map").arg m) cmd
  let cmd := format.output_args cmd
  cmd.arg output

/-! ## The effectful control flow of `main` (main.rs lines 221-253)

`main` performs three kinds of external effects, in source order: the
`ffmpeg -version` availability probe inside `Ffmpeg::new`, the
`output.is_file()` check, and spawning the transcode subprocess.  We
record these in a trace and parameterize the run over an environment
supplying each effect's outcome. -/

/-- An observable external effect of one invocation. -/
inductive Event
  /-- `Ffmpeg::new` runs `ffmpeg -version`. -/
  | probe
  /-- `main` checks whether the derived output path is a regular file. -/
  | checkFile (path : String)
  /-- `Ffmpeg::transcode` spawns the transcode subprocess. -/
  | spawn (args : List String)
deriving DecidableEq

/-- The environment of a run: outcome of the version probe, the
file-existence oracle, and the exit status of the transcode process
given its argument list. -/
structure Env where
  probeSuccess : Bool
  is_file : String → Bool
  runSuccess : List String → Bool

/-- The command-line options as resolved by clap (main.rs lines
176-219): the positional `input` is required, so it is always present;
`format`, `start`, `end` and `duration` are optional; `map` is
repeatable (empty when absent). -/
structure Opts where
  input : String
  format : Option String
  start : Option String
  «end» : Option String
  duration : Option String
  map : List String

/-- The format-selector match of `main` (main.rs lines 226-231). -/
def parseFormat : Option String → Except String Format
  | none => .ok .YouTube
  | some s =>
    if s = "youtube" ∨ s = "YouTube" then .ok .YouTube
    else if s = "gif" ∨ s = "Gif" then .ok .Gif
    else if s = "copy" ∨ s = "Copy" then .ok .Copy
    else .error ("illegal --format: " ++ s)

/-- `main` (main.rs lines 221-253): result together with the ordered
trace of external effects.  `Ffmpeg::new` probes first; then the format
selector is matched, the trim/map fields are copied into the `Ffmpeg`
struct, the output path is derived, the collision check runs, and
finally the transcode subprocess is spawned. -/
def mainRun (env : Env) (o : Opts) : Except String Unit × List Event :=
  if env.probeSuccess then
    match parseFormat o.format with
    | .error e => (.error e, [.probe])
    | .ok format =>
      let ffmpeg : Ffmpeg := ⟨o.map, o.start, o.«end», o.duration⟩
      match format.output_file o.input with
      | .error e => (.error e, [.probe])
      | .ok output =>
        if env.is_file output then
          (.error ("output already exists: " ++ output), [.probe, .checkFile output])
        else
          let args := (ffmpeg.transcode_cmd format o.input output).args
          if env.runSuccess args then
            (.ok (), [.probe, .checkFile output, .spawn args])
          else
            (.error "failed to run command", [.probe, .checkFile output, .spawn args])
  else
    (.error "could not run: ffmpeg --version", [.probe])

/-! ## Helper lemmas -/

theorem mk_append_mk (a b : List Char) :
    String.mk a ++ String.mk b = String.mk (a ++ b) := rfl

theorem lastDotSplit_eq_some {l b a : List Char}
    (h : lastDotSplit l = some (b, a)) : l = b ++ '.' :: a := by
  induction l generalizing b with
  | nil => simp [lastDotSplit] at h
  | cons c rest ih =>
    rw [lastDotSplit] at h
    cases hr : lastDotSplit rest with
    | some q =>
      obtain ⟨b', a'⟩ := q
      simp only [hr, Option.some.injEq, Prod.mk.injEq] at h
      obtain ⟨hb, ha⟩ := h
      subst hb; subst ha
      rw [List.cons_append, ih hr]
    | none =>
      simp only [hr] at h
      by_cases hc : c = '.'
      · rw [if_pos hc] at h
        simp only [Option.some.injEq, Prod.mk.injEq] at h
        obtain ⟨hb, ha⟩ := h
        subst hb; subst ha
        rw [hc, List.nil_append]
      · rw [if_neg hc] at h
        exact absurd h (by simp)

theorem fileName_cases (p : String) :
    fileName p = none ∨ fileName p = some p := by
  unfold fileName
  by_cases hc : p = "" ∨ p = "." ∨ p = ".."
  · left; simp [hc]
  · right; simp [hc]

theorem splitFileAtDot_eq {f : String} {b a : List Char}
    (hs : lastDotSplit f.data = some (b, a)) (hb : b ≠ []) :
    splitFileAtDot f = (⟨b⟩, some ⟨a⟩) := by
  unfold splitFileAtDot
  rw [hs]
  simp [hb]

theorem splitFileAtDot_snd_eq_some {f e : String}
    (h : (splitFileAtDot f).2 = some e) :
    ∃ b, b ≠ [] ∧ lastDotSplit f.data = some (b, e.data) ∧
      splitFileAtDot f = (⟨b⟩, some e) := by
  unfold splitFileAtDot at h
  cases hs : lastDotSplit f.data with
  | none => simp [hs] at h
  | some q =>
    obtain ⟨b, a⟩ := q
    simp only [hs] at h
    by_cases hb : b = []
    · simp [hb] at h
    · rw [if_neg hb] at h
      have ha : (⟨a⟩ : String) = e := by simpa using h
      refine ⟨b, hb, ?_, ?_⟩
      · rw [← ha]
      · rw [splitFileAtDot_eq hs hb, ha]

theorem extension_eq_some {p e : String} (h : extension p = some e) :
    fileName p = some p ∧
      ∃ b, b ≠ [] ∧ lastDotSplit p.data = some (b, e.data) ∧
        splitFileAtDot p = (⟨b⟩, some e) := by
  rcases fileName_cases p with hf | hf
  · rw [extension, hf] at h
    simp at h
  · rw [extension, hf, Option.some_bind] at h
    exact ⟨hf, splitFileAtDot_snd_eq_some h⟩

theorem splitFileAtDot_snd_none {p : String}
    (h : (splitFileAtDot p).2 = none) : (splitFileAtDot p).1 = p := by
  unfold splitFileAtDot at h ⊢
  cases hs : lastDotSplit p.data with
  | none => rfl
  | some q =>
    obtain ⟨b, a⟩ := q
    simp only [hs] at h ⊢
    by_cases hb : b = []
    · simp [hb]
    · simp [hb] at h

theorem setExtension_of_none {p e : String} (h : fileName p = none) :
    setExtension p e = p := by
  unfold setExtension
  rw [h]

theorem setExtension_eq {p e : String} (hf : fileName p = some p)
    (he : e ≠ "") : setExtension p e = (splitFileAtDot p).1 ++ ("." ++ e) := by
  unfold setExtension
  rw [hf]
  simp [he]

theorem append_ne_empty_left {x y : String} (hx : x.data ≠ []) :
    x ++ y ≠ "" := by
  intro h
  have hd : (x ++ y).data = ([] : List Char) := congrArg String.data h
  rw [String.data_append] at hd
  exact hx (List.append_eq_nil.mp hd).1

/-- Branch equation for `Format.output_file` on `Copy` when the input
has an extension. -/
theorem output_file_copy_of_some {p e : String} (h : extension p = some e) :
    Format.output_file .Copy p = .ok (setExtension p ("copy." ++ e)) := by
  show (match extension p with
    | some e => Except.ok (setExtension p ("copy." ++ e))
    | none => Except.error ("expected extension: " ++ p)) = _
  rw [h]

/-- Branch equation for `Format.output_file` on `Copy` when the input
has no extension. -/
theorem output_file_copy_of_none {p : String} (h : extension p = none) :
    Format.output_file .Copy p = .error ("expected extension: " ++ p) := by
  show (match extension p with
    | some e => Except.ok (setExtension p ("copy." ++ e))
    | none => Except.error ("expected extension: " ++ p)) = _
  rw [h]

/-- If the input has extension `e`, setting the extension back to `e`
reproduces the input (Rust set_extension replaces the trailing `.e`). -/
theorem setExtension_self {p e : String} (h : extension p = some e)
    (he : e ≠ "") : setExtension p e = p := by
  obtain ⟨hf, b, hb, hs, hsp⟩ := extension_eq_some h
  rw [setExtension_eq hf he, hsp]
  have hp : p = String.mk (b ++ '.' :: e.data) := by
    conv_lhs => rw [show p = String.mk p.data from rfl]
    rw [lastDotSplit_eq_some hs]
  calc String.mk b ++ ("." ++ e)
      = String.mk b ++ String.mk ('.' :: e.data) := rfl
    _ = String.mk (b ++ '.' :: e.data) := mk_append_mk _ _
    _ = p := hp.symm

/-! ## Claim theorems -/

/-- C1: the output-naming function is pure and satisfies the four quoted
examples; in general the pass-through (`Copy`) preset maps an input with
extension `E` to a name ending in `copy.E`, and fails with the
missing-extension error when the input has no extension. -/
theorem C1_output_naming :
    Format.output_file .YouTube "video.mkv" = .ok "video.mp4" ∧
    Format.output_file .Copy "video.mkv" = .ok "video.copy.mkv" ∧
    Format.output_file .Gif "clip.mp4" = .ok "clip.gif" ∧
    Format.output_file .Copy "noext" = .error ("expected extension: " ++ "noext") ∧
    (∀ p e, extension p = some e →
      ∃ stem, Format.output_file .Copy p = .ok (stem ++ ("copy." ++ e))) ∧
    (∀ p, extension p = none →
      Format.output_file .Copy p = .error ("expected extension: " ++ p)) := by
  refine ⟨rfl, rfl, rfl, rfl, ?_, ?_⟩
  · intro p e h
    obtain ⟨hf, b, hb, hs, hsp⟩ := extension_eq_some h
    refine ⟨String.mk b ++ ".", ?_⟩
    have hne : ("copy." ++ e : String) ≠ "" :=
      append_ne_empty_left (by simp)
    rw [output_file_copy_of_some h, setExtension_eq hf hne, hsp]
    simp only [String.append_assoc]
  · intro p h
    exact output_file_copy_of_none h

/-- C1 witness: the universal parts of `C1_output_naming` instantiated at
concrete inputs. -/
theorem C1_output_naming_witness :
    (∃ stem, Format.output_file .Copy "video.mkv" = .ok (stem ++ ("copy." ++ "mkv"))) ∧
    Format.output_file .Copy "noext" = .error ("expected extension: " ++ "noext") :=
  ⟨C1_output_naming.2.2.2.2.1 "video.mkv" "mkv" rfl,
   C1_output_naming.2.2.2.2.2 "noext" rfl⟩

theorem arg_args (c : Command) (a : String) :
    (c.arg a).args = c.args ++ [a] := rfl

theorem addArgs_args (c : Command) (l : List String) :
    (c.addArgs l).args = c.args ++ l := rfl

theorem input_args_args (fmt : Format) (c : Command) :
    (fmt.input_args c).args = c.args ++ fmt.pre_input_flags := by
  cases fmt <;>
    simp [Format.input_args, Format.pre_input_flags, Command.addArgs]

theorem output_args_args (fmt : Format) (c : Command) :
    (fmt.output_args c).args = c.args ++ fmt.post_input_flags := by
  cases fmt <;> rfl

/-- An optional flag/value pair: `[flag, v]` when the value is present,
nothing otherwise. -/
def optFlag (flag : String) : Option String → List String
  | some v => [flag, v]
  | none => []

/-- The stream-map fragment: one `-map <value>` pair per entry, in input
order. -/
def mapFlags (ms : List String) : List String :=
  ms.flatMap fun m => ["-map", m]

theorem mapFlags_length (ms : List String) :
    (mapFlags ms).length = 2 * ms.length := by
  induction ms with
  | nil => rfl
  | cons m ms ih =>
    have hc : mapFlags (m :: ms) = "-map" :: m :: mapFlags ms := rfl
    rw [hc, List.length_cons, List.length_cons, ih, List.length_cons]
    omega

theorem foldl_map_args (ms : List String) (c : Command) :
    (ms.foldl (fun c m => (c.arg "-map").arg m) c).args
      = c.args ++ mapFlags ms := by
  induction ms generalizing c with
  | nil => simp [mapFlags]
  | cons m ms ih =>
    rw [List.foldl_cons, ih]
    simp [mapFlags, Command.arg]

/-- Decomposition of the assembled argument list (shared helper). -/
theorem transcode_cmd_args (f : Ffmpeg) (fmt : Format) (input output : String) :
    (f.transcode_cmd fmt input output).args =
      optFlag "-ss" f.start ++ optFlag "-to" f.«end» ++ optFlag "-t" f.duration
        ++ fmt.pre_input_flags ++ ["-i", input] ++ mapFlags f.map
        ++ fmt.post_input_flags ++ [output] := by
  obtain ⟨map, start, e, dur⟩ := f
  unfold Ffmpeg.transcode_cmd
  cases start <;> cases e <;> cases dur <;>
    simp [optFlag, arg_args, addArgs_args, input_args_args, output_args_args,
      foldl_map_args]

/-- C2: for every combination of optional start/end/duration, stream
maps, preset and paths, the assembled argument list is exactly the fixed
concatenation: trim-start pair (if set), trim-end pair (if set),
duration pair (if set), the preset's pre-input flags, `-i` and the input
path, the stream-map pairs, the preset's post-input flags, and the
output path last.  Omitting an optional field removes exactly its pair
and shifts nothing else. -/
theorem C2_argument_order (f : Ffmpeg) (fmt : Format) (input output : String) :
    (f.transcode_cmd fmt input output).args =
      optFlag "-ss" f.start ++ optFlag "-to" f.«end» ++ optFlag "-t" f.duration
        ++ fmt.pre_input_flags ++ ["-i", input] ++ mapFlags f.map
        ++ fmt.post_input_flags ++ [output] :=
  transcode_cmd_args f fmt input output

/-- C3: the assembled argument list carries one `-map <value>` pair per
supplied stream-map entry, in the supplied order, placed after the input
path and before the preset's output flags; the fragment's length is
twice the number of entries, and `["0:0", "0:1"]` yields the consecutive
fragment `-map 0:0 -map 0:1`. -/
theorem C3_stream_maps (f : Ffmpeg) (fmt : Format) (input output : String) :
    (∃ pre, (f.transcode_cmd fmt input output).args =
        pre ++ ["-i", input] ++ mapFlags f.map
          ++ fmt.post_input_flags ++ [output]) ∧
    mapFlags f.map = f.map.flatMap (fun m => ["-map", m]) ∧
    (mapFlags f.map).length = 2 * f.map.length ∧
    (Ffmpeg.transcode_cmd ⟨["0:0", "0:1"], none, none, none⟩ .Copy input output).args
      = ["-i", input, "-map", "0:0", "-map", "0:1", "-c:v", "copy", "-c:a", "copy",
         output] := by
  refine ⟨⟨optFlag "-ss" f.start ++ optFlag "-to" f.«end» ++ optFlag "-t" f.duration
      ++ fmt.pre_input_flags, ?_⟩, rfl, ?_, ?_⟩
  · rw [transcode_cmd_args]
  · exact mapFlags_length f.map
  · rfl

/-- The format selectors the match of `main` accepts. -/
def acceptedFormats : List String :=
  ["youtube", "YouTube", "gif", "Gif", "copy", "Copy"]

theorem parseFormat_not_mem {s : String} (hs : s ∉ acceptedFormats) :
    parseFormat (some s) = .error ("illegal --format: " ++ s) := by
  simp only [acceptedFormats, List.mem_cons, not_or] at hs
  obtain ⟨h1, h2, h3, h4, h5, h6, -⟩ := hs
  simp only [parseFormat]
  rw [if_neg (not_or.mpr ⟨h1, h2⟩), if_neg (not_or.mpr ⟨h3, h4⟩),
    if_neg (not_or.mpr ⟨h5, h6⟩)]

/-- C4 counterexample: `GIF` is a casing of the recognized token `Gif`,
yet the lookup rejects it, so the lookup is not case-insensitive. -/
theorem C4_counterexample :
    parseFormat (some "GIF") = .error ("illegal --format: " ++ "GIF") := by
  simp only [parseFormat]
  rw [if_neg (by decide), if_neg (by decide), if_neg (by decide)]

/-- C4 (amended): the lookup accepts exactly two spellings per
recognized token — the all-lowercase and the capitalized one
(`youtube`/`YouTube`, `gif`/`Gif`, `copy`/`Copy`) — mapping each to its
preset; every other string (including other casings) is rejected with
the unrecognized-format error naming it. -/
theorem C4_spelling_acceptance :
    parseFormat (some "youtube") = .ok .YouTube ∧
    parseFormat (some "YouTube") = .ok .YouTube ∧
    parseFormat (some "gif") = .ok .Gif ∧
    parseFormat (some "Gif") = .ok .Gif ∧
    parseFormat (some "copy") = .ok .Copy ∧
    parseFormat (some "Copy") = .ok .Copy ∧
    (∀ s, s ∉ acceptedFormats →
      parseFormat (some s) = .error ("illegal --format: " ++ s)) :=
  ⟨rfl, rfl, rfl, rfl, rfl, rfl, fun _ hs => parseFormat_not_mem hs⟩

/-- C4 witness: the rejection clause of `C4_spelling_acceptance`
instantiated at the concrete token `mp4`. -/
theorem C4_spelling_acceptance_witness :
    parseFormat (some "mp4") = .error ("illegal --format: " ++ "mp4") :=
  C4_spelling_acceptance.2.2.2.2.2.2 "mp4" (by decide)

/-- C5: an absent format selector defaults to the streaming (`YouTube`)
preset; a token outside the catalog fails with a fatal error message
naming the offending token. -/
theorem C5_default_and_unknown :
    parseFormat none = .ok .YouTube ∧
    (∀ s, s ∉ acceptedFormats →
      parseFormat (some s) = .error ("illegal --format: " ++ s)) :=
  ⟨rfl, fun _ hs => parseFormat_not_mem hs⟩

/-- C5 witness: `C5_default_and_unknown` instantiated at the concrete
unknown token `webm`. -/
theorem C5_default_and_unknown_witness :
    parseFormat none = .ok .YouTube ∧
    parseFormat (some "webm") = .error ("illegal --format: " ++ "webm") :=
  ⟨C5_default_and_unknown.1, C5_default_and_unknown.2 "webm" (by decide)⟩

/-- Shared helper: when the probe succeeds, the format resolves, the
output name derives, and the derived output already exists, the run
errors naming the path and its trace stops at the file check. -/
theorem mainRun_collision {env : Env} {o : Opts} {fmt : Format} {out : String}
    (hp : env.probeSuccess = true) (hf : parseFormat o.format = .ok fmt)
    (ho : Format.output_file fmt o.input = .ok out)
    (hex : env.is_file out = true) :
    mainRun env o =
      (.error ("output already exists: " ++ out),
       [.probe, .checkFile out]) := by
  unfold mainRun
  rw [hp, if_pos rfl]
  split
  · rename_i e heq
    rw [hf] at heq
    cases heq
  · rename_i fmt2 heq
    rw [hf] at heq
    injection heq with h
    subst h
    dsimp only
    split
    · rename_i e heq2
      rw [ho] at heq2
      cases heq2
    · rename_i out2 heq2
      rw [ho] at heq2
      injection heq2 with h2
      subst h2
      rw [if_pos hex]

/-- Shared helper: every trace of `mainRun` is one of the three probe-led
prefixes. -/
theorem mainRun_trace (env : Env) (o : Opts) :
    (mainRun env o).2 = [Event.probe] ∨
    (∃ out, (mainRun env o).2 = [Event.probe, Event.checkFile out]) ∨
    (∃ out args, (mainRun env o).2
      = [Event.probe, Event.checkFile out, Event.spawn args]) := by
  unfold mainRun
  split
  · split
    · left; rfl
    · rename_i fmt heq
      dsimp only
      split
      · left; rfl
      · rename_i out heq2
        split
        · right; left; exact ⟨out, rfl⟩
        · right; right
          refine ⟨out, (Ffmpeg.transcode_cmd ⟨o.map, o.start, o.«end», o.duration⟩
            fmt o.input out).args, ?_⟩
          split
          · rfl
          · rfl
  · left; rfl

/-- C6: with the probe succeeding and the output name derived, an
existing regular file at the derived output path makes the run abort
with the collision error naming the path, and the trace shows no
transcode subprocess was spawned. -/
theorem C6_output_collision (env : Env) (o : Opts) (fmt : Format) (out : String)
    (hp : env.probeSuccess = true) (hf : parseFormat o.format = .ok fmt)
    (ho : Format.output_file fmt o.input = .ok out)
    (hex : env.is_file out = true) :
    mainRun env o =
      (.error ("output already exists: " ++ out),
       [.probe, .checkFile out]) :=
  mainRun_collision hp hf ho hex

/-- C6 witness: `C6_output_collision` at a concrete run (input
`video.mkv`, default format, `video.mp4` already present). -/
theorem C6_output_collision_witness :
    mainRun ⟨true, fun s => s == "video.mp4", fun _ => true⟩
        ⟨"video.mkv", none, none, none, none, []⟩ =
      (.error ("output already exists: " ++ "video.mp4"),
       [.probe, .checkFile "video.mp4"]) :=
  C6_output_collision _ _ .YouTube "video.mp4" rfl rfl rfl rfl

/-- C7: the availability probe is the first external effect of every
run and happens exactly once; when it fails, the run aborts with the
probe error and its whole trace is the probe — no file is checked and no
transcode subprocess is spawned. -/
theorem C7_probe_first (env : Env) (o : Opts) :
    ((mainRun env o).2.head? = some Event.probe ∧
     Event.probe ∉ (mainRun env o).2.tail) ∧
    (env.probeSuccess = false →
      mainRun env o = (.error "could not run: ffmpeg --version", [.probe])) := by
  constructor
  · rcases mainRun_trace env o with h | ⟨out, h⟩ | ⟨out, args, h⟩ <;> rw [h] <;> simp
  · intro hp
    unfold mainRun
    rw [hp]
    simp

/-- C7 witness: `C7_probe_first` at a concrete run whose probe fails. -/
theorem C7_probe_first_witness :
    mainRun ⟨false, fun _ => false, fun _ => false⟩
        ⟨"video.mkv", none, none, none, none, []⟩ =
      (.error "could not run: ffmpeg --version", [.probe]) :=
  (C7_probe_first ⟨false, fun _ => false, fun _ => false⟩
    ⟨"video.mkv", none, none, none, none, []⟩).2 rfl

theorem extension_none_split {p : String} (hf : fileName p = some p)
    (he : extension p = none) : (splitFileAtDot p).2 = none := by
  rw [extension, hf, Option.some_bind] at he
  exact he

/-- When the input already carries extension `mp4`, the YouTube output
name is the input itself. -/
theorem output_file_youtube_fixpoint {p : String}
    (h : extension p = some "mp4") :
    Format.output_file .YouTube p = .ok p := by
  show Except.ok (setExtension p "mp4") = Except.ok p
  rw [setExtension_self h (by decide)]

/-- When the input already carries extension `gif`, the Gif output name
is the input itself. -/
theorem output_file_gif_fixpoint {p : String}
    (h : extension p = some "gif") :
    Format.output_file .Gif p = .ok p := by
  show Except.ok (setExtension p "gif") = Except.ok p
  rw [setExtension_self h (by decide)]

/-- Output naming fails only for `Copy` on an extension-less input. -/
theorem output_file_error_only_copy {fmt : Format} {p msg : String}
    (h : Format.output_file fmt p = .error msg) :
    fmt = Format.Copy ∧ extension p = none := by
  cases fmt with
  | YouTube => exact absurd h (by simp [Format.output_file])
  | Gif => exact absurd h (by simp [Format.output_file])
  | Copy =>
    cases he : extension p with
    | some e =>
      rw [output_file_copy_of_some he] at h
      cases h
    | none => exact ⟨rfl, rfl⟩

/-- C8 counterexample: two distinct preset variants, `Gif` and `Copy`,
both contribute no pre-input flags, so it is false that exactly one
variant does. -/
theorem C8_counterexample :
    Format.input_args .Gif ⟨[]⟩ = ⟨[]⟩ ∧
    Format.input_args .Copy ⟨[]⟩ = ⟨[]⟩ ∧
    Format.Gif ≠ Format.Copy ∧
    ¬ (∃! fmt : Format, ∀ c, Format.input_args fmt c = c) := by
  refine ⟨rfl, rfl, by decide, ?_⟩
  rintro ⟨fmt, -, huniq⟩
  have hg : Format.Gif = fmt := huniq .Gif (fun c => rfl)
  have hc : Format.Copy = fmt := huniq .Copy (fun c => rfl)
  rw [← hg] at hc
  exact absurd hc (by decide)

/-- C8 (amended): exactly one preset variant — the streaming `YouTube`
one — contributes pre-input flags, and every other variant contributes
none; the catalog is pure by construction (its lookup and naming rules
are functions with no effects), the selector lookup fails exactly on
tokens outside the accepted set (naming the token), and output naming
fails only for the pass-through preset on a missing input extension. -/
theorem C8_catalog_purity :
    (∃! fmt : Format, ∃ c, Format.input_args fmt c ≠ c) ∧
    (∀ fmt : Format, fmt ≠ .YouTube → ∀ c, Format.input_args fmt c = c) ∧
    (∀ s msg, parseFormat (some s) = .error msg →
      s ∉ acceptedFormats ∧ msg = "illegal --format: " ++ s) ∧
    (∀ fmt p msg, Format.output_file fmt p = .error msg →
      fmt = Format.Copy ∧ extension p = none) := by
  refine ⟨⟨.YouTube, ⟨⟨[]⟩, by decide⟩, ?_⟩, ?_, ?_, ?_⟩
  · rintro fmt ⟨c, hc⟩
    cases fmt with
    | YouTube => rfl
    | Gif => exact absurd rfl hc
    | Copy => exact absurd rfl hc
  · rintro fmt hne c
    cases fmt with
    | YouTube => exact absurd rfl hne
    | Gif => rfl
    | Copy => rfl
  · intro s msg h
    have hs : s ∉ acceptedFormats := by
      intro hmem
      simp only [acceptedFormats, List.mem_cons, List.not_mem_nil, or_false] at hmem
      rcases hmem with rfl | rfl | rfl | rfl | rfl | rfl <;>
        simp [parseFormat] at h
    rw [parseFormat_not_mem hs] at h
    injection h with h2
    exact ⟨hs, h2.symm⟩
  · intro fmt p msg h
    exact output_file_error_only_copy h

/-- C8 witness: the failure-condition clauses of `C8_catalog_purity`
instantiated at the concrete inputs `noext` (pass-through naming) and
`avi` (selector lookup). -/
theorem C8_catalog_purity_witness :
    (Format.Copy = Format.Copy ∧ extension "noext" = none) ∧
    ("avi" ∉ acceptedFormats ∧
      "illegal --format: " ++ "avi" = "illegal --format: " ++ "avi") :=
  ⟨C8_catalog_purity.2.2.2 Format.Copy "noext" ("expected extension: " ++ "noext") rfl,
   C8_catalog_purity.2.2.1 "avi" ("illegal --format: " ++ "avi") rfl⟩

/-- C9 counterexample: the input path `.` has no extension, yet the
streaming preset returns it unchanged instead of appending `.mp4` (Rust
`set_extension` is a no-op on a path with no file name), so "on an input
with no extension it appends the target extension" fails for it. -/
theorem C9_counterexample :
    extension "." = none ∧
    Format.output_file .YouTube "." = .ok "." ∧
    ("." : String) ≠ "." ++ ".mp4" :=
  ⟨rfl, rfl, by decide⟩

/-- C9 (amended): output naming errs exactly when the preset is
pass-through and the input has no extension; the streaming and animated
presets are total; on an extension-less input that has a file-name
component they append the target extension (`noext` ↦ `noext.mp4`), and
on the degenerate paths with no file-name component (``, `.`, `..`) they
return the input unchanged. -/
theorem C9_totality :
    (∀ fmt p, (∃ msg, Format.output_file fmt p = .error msg) ↔
      (fmt = Format.Copy ∧ extension p = none)) ∧
    (∀ p, ∃ out, Format.output_file .YouTube p = .ok out) ∧
    (∀ p, ∃ out, Format.output_file .Gif p = .ok out) ∧
    (∀ p, fileName p = some p → extension p = none →
      Format.output_file .YouTube p = .ok (p ++ ".mp4") ∧
      Format.output_file .Gif p = .ok (p ++ ".gif")) ∧
    (∀ p, fileName p = none →
      Format.output_file .YouTube p = .ok p ∧
      Format.output_file .Gif p = .ok p) := by
  refine ⟨?_, ?_, ?_, ?_, ?_⟩
  · intro fmt p
    constructor
    · rintro ⟨msg, h⟩
      exact output_file_error_only_copy h
    · rintro ⟨rfl, he⟩
      exact ⟨"expected extension: " ++ p, output_file_copy_of_none he⟩
  · intro p
    exact ⟨setExtension p "mp4", rfl⟩
  · intro p
    exact ⟨setExtension p "gif", rfl⟩
  · intro p hf he
    have hsnd : (splitFileAtDot p).2 = none := extension_none_split hf he
    have hstem : (splitFileAtDot p).1 = p := splitFileAtDot_snd_none hsnd
    constructor
    · show Except.ok (setExtension p "mp4") = _
      rw [setExtension_eq hf (by decide), hstem]
      rfl
    · show Except.ok (setExtension p "gif") = _
      rw [setExtension_eq hf (by decide), hstem]
      rfl
  · intro p hf
    exact ⟨congrArg Except.ok (setExtension_of_none hf),
      congrArg Except.ok (setExtension_of_none hf)⟩

/-- C9 witness: `C9_totality` instantiated at the concrete inputs
`noext` (error for pass-through, append for streaming) and `.` (no
file-name component). -/
theorem C9_totality_witness :
    (∃ msg, Format.output_file .Copy "noext" = .error msg) ∧
    Format.output_file .YouTube "noext" = .ok ("noext" ++ ".mp4") ∧
    Format.output_file .YouTube "." = .ok "." :=
  ⟨(C9_totality.1 Format.Copy "noext").mpr ⟨rfl, rfl⟩,
   (C9_totality.2.2.2.1 "noext" rfl rfl).1,
   (C9_totality.2.2.2.2 "." rfl).1⟩

/-- C10: an input whose extension is already `mp4` (resp. `gif`) is its
own derived output under the streaming (resp. animated) preset, so
whenever such an input exists as a regular file the run aborts with the
collision error naming it and never spawns the transcode subprocess. -/
theorem C10_target_extension_fixpoint :
    (∀ p, extension p = some "mp4" →
      Format.output_file .YouTube p = .ok p) ∧
    (∀ p, extension p = some "gif" →
      Format.output_file .Gif p = .ok p) ∧
    (∀ env o fmt, env.probeSuccess = true →
      parseFormat o.format = .ok fmt →
      ((fmt = Format.YouTube ∧ extension o.input = some "mp4") ∨
       (fmt = Format.Gif ∧ extension o.input = some "gif")) →
      env.is_file o.input = true →
      mainRun env o = (.error ("output already exists: " ++ o.input),
        [.probe, .checkFile o.input])) := by
  refine ⟨fun p h => output_file_youtube_fixpoint h,
    fun p h => output_file_gif_fixpoint h, ?_⟩
  intro env o fmt hp hf hdisj hex
  rcases hdisj with ⟨rfl, he⟩ | ⟨rfl, he⟩
  · exact mainRun_collision hp hf (output_file_youtube_fixpoint he) hex
  · exact mainRun_collision hp hf (output_file_gif_fixpoint he) hex

/-- C10 witness: `C10_target_extension_fixpoint` at the concrete run
with input `a.mp4` present on disk and the default format. -/
theorem C10_target_extension_fixpoint_witness :
    Format.output_file .YouTube "a.mp4" = .ok "a.mp4" ∧
    mainRun ⟨true, fun s => s == "a.mp4", fun _ => true⟩
        ⟨"a.mp4", none, none, none, none, []⟩ =
      (.error ("output already exists: " ++ "a.mp4"),
       [.probe, .checkFile "a.mp4"]) :=
  ⟨C10_target_extension_fixpoint.1 "a.mp4" rfl,
   C10_target_extension_fixpoint.2.2 _ _ .YouTube rfl rfl
     (Or.inl ⟨rfl, rfl⟩) rfl⟩

end Tessie
